import Mathlib

/-!
Shallow embedding of the climate-site admin backend (`server.js`) and proofs
about its project-record CRUD, image-list maintenance, auth gate, list
sorting and detail-page escaping.

Conventions of the embedding:
* Form/body fields and persisted record fields that may be absent are
  `Option String`; JavaScript truthiness of such a field is
  "present and non-empty" (`jsTruthy`).
* `new Date(s).getTime()` is modelled by an abstract
  `parse : String → Option Int` argument, `none` standing for `NaN`
  (an invalid date).  `JSON.parse` is likewise an abstract
  `jp : String → Option JsVal` argument, `none` standing for a thrown
  `SyntaxError`.
* The store document is a `List Project`; each handler re-reads it
  (`readProjectsList`, which applies the legacy-`image` normalization of
  `readProjects`) and returns the response together with the store as
  persisted after the request.
-/

namespace ClimateSite

/-- JavaScript truthiness of an optional string field: `undefined` and the
empty string are falsy, any other string is truthy. -/
def jsTruthy : Option String → Bool
  | none => false
  | some s => s ≠ ""

/-- Model of `a || b` on an optional string: the left operand when truthy, else `b`. -/
def jsOr (a : Option String) (b : String) : String :=
  match a with
  | some s => if s = "" then b else s
  | none => b

/-- Whitespace recognized by JavaScript `String.prototype.trim` /
`parseInt` (the ASCII part, which is all the server ever meets). -/
def isJsSpace (c : Char) : Bool :=
  c = ' ' ∨ c = '\t' ∨ c = '\n' ∨ c = '\r' ∨ c = '\x0b' ∨ c = '\x0c'

/-- Model of `String.prototype.trim` on a character list. -/
def jsTrimChars (l : List Char) : List Char :=
  ((l.dropWhile isJsSpace).reverse.dropWhile isJsSpace).reverse

/-- Model of `String.prototype.trim`. -/
def jsTrim (s : String) : String := ⟨jsTrimChars s.data⟩

/-- Split a character list at every occurrence of the character `c`
(JavaScript `String.prototype.split` with a single-character separator:
keeps empty pieces). -/
def splitOnChar (c : Char) : List Char → List (List Char)
  | [] => [[]]
  | x :: xs =>
    let rest := splitOnChar c xs
    if x = c then [] :: rest
    else
      match rest with
      | [] => [[x]]
      | piece :: more => (x :: piece) :: more

/-- Model of `s.split(sep)` for a one-character separator, as strings. -/
def jsSplit (s : String) (c : Char) : List String :=
  (splitOnChar c s.data).map (fun l => ⟨l⟩)

/-- Decimal value of a digit list (most significant first). -/
def digitsVal (l : List Char) : Nat :=
  l.foldl (fun a c => a * 10 + (c.toNat - 48)) 0

/-- JavaScript `parseInt(s, 10)`: skip whitespace, optional sign, longest
prefix of decimal digits; `none` models `NaN` (no digits). -/
def jsParseInt (s : String) : Option Int :=
  let cs := s.data.dropWhile isJsSpace
  let signAndRest : Int × List Char :=
    match cs with
    | '-' :: t => (-1, t)
    | '+' :: t => (1, t)
    | t => (1, t)
  let digits := signAndRest.2.takeWhile Char.isDigit
  if digits = [] then none
  else some (signAndRest.1 * (digitsVal digits : Int))

/-- JavaScript `s.endsWith(suffix)`. -/
def jsEndsWith (s suffix : String) : Bool :=
  suffix.data.isSuffixOf s.data

/-- The test `img === rem || img.endsWith(rem)` — the image-identifier match used by
both the removal loop and the make-primary resolution (server.js:221-223,
256-258). -/
def matchesId (rem img : String) : Bool :=
  img == rem || jsEndsWith img rem

/-- Model of JavaScript `Array.prototype.findIndex`, with `none` for `-1`. -/
def findIndexA (f : α → Bool) : List α → Option Nat
  | [] => none
  | x :: xs => if f x then some 0 else (findIndexA f xs).map (· + 1)

/-- Model of `(outcomes || "").split("\n").map(s => s.trim()).filter(Boolean)`
(server.js:162-165 and 199-204). -/
def splitOutcomes (s : String) : List String :=
  ((jsSplit s '\n').map jsTrim).filter (fun x => x ≠ "")

/-- Model of `String(x).split(",").map(s => s.trim()).filter(Boolean)` — the
comma-separated fallback parsing of `removeImages` (server.js:213-216). -/
def commaSplit (s : String) : List String :=
  ((jsSplit s ',').map jsTrim).filter (fun x => x ≠ "")

/-- A parsed JSON value, the codomain of the abstract `JSON.parse` model. -/
inductive JsVal where
  | nul : JsVal
  | bool (b : Bool) : JsVal
  | num (n : Int) : JsVal
  | str (s : String) : JsVal
  | arr (l : List JsVal) : JsVal
  | obj : JsVal

/-- Model of `Array.isArray`. -/
def JsVal.isArr : JsVal → Bool
  | .arr _ => true
  | _ => false

/-- JavaScript string coercion of a primitive JSON value (the coercion
`endsWith` applies to a non-string `rem`; since `endsWith` subsumes
equality, matching a coerced element is exactly `matchesId` on its
string image). -/
def JsVal.toStr : JsVal → String
  | .nul => "null"
  | .bool true => "true"
  | .bool false => "false"
  | .num n => toString n
  | .str s => s
  | .arr _ => ""
  | .obj => "[object Object]"

/-- The value of the legacy `image` field of a persisted record: a string
or (per the `Array.isArray` branch) an array of strings. -/
inductive JsImage where
  | str (s : String) : JsImage
  | arr (l : List String) : JsImage
deriving DecidableEq

/-- A project record as persisted in `projects.json` / held in memory.
Fields that a (possibly legacy) record may lack are `Option`-valued. -/
structure Project where
  id : String
  title : Option String := none
  summary : Option String := none
  date : Option String := none
  results : Option String := none
  purpose : Option String := none
  outcomes : Option (List String) := none
  createdAt : Option String := none
  image : Option JsImage := none
  images : Option (List String) := none
deriving DecidableEq

/-- Truthiness of the legacy `image` field (`p.image &&`): absent and the
empty string are falsy; an array is always truthy. -/
def jsTruthyImage : Option JsImage → Bool
  | none => false
  | some (.str s) => s ≠ ""
  | some (.arr _) => true

/-- The per-record normalization performed by `readProjects`
(server.js:50-57): when the legacy `image` field is truthy and `images`
is absent, wrap it into `images` and delete `image`; then default
`images` to `[]`. -/
def normalizeProject (p : Project) : Project :=
  let p1 :=
    if jsTruthyImage p.image ∧ p.images = none then
      { p with
        images := some (match p.image with
          | some (.arr l) => l
          | some (.str s) => [s]
          | none => []),
        image := none }
    else p
  { p1 with images := some (p1.images.getD []) }

/-- Model of `readProjects()` applied to a successfully parsed store document
(server.js:45-61): normalize every record. -/
def readProjectsList (raw : List Project) : List Project :=
  raw.map normalizeProject

/-- The sort key `new Date(a.date || a.createdAt || 0).getTime()` of the
list endpoint (server.js:133-134): the `date` field when truthy, else
`createdAt` when truthy, else the epoch (0).  `none` models `NaN`. -/
def sortKey (parse : String → Option Int) (p : Project) : Option Int :=
  if jsTruthy p.date then parse (p.date.getD "")
  else if jsTruthy p.createdAt then parse (p.createdAt.getD "")
  else some 0

/-- The comparator `(a, b) => db - da` (server.js:132-136).  When either
key is `NaN` the subtraction is `NaN`, which ECMAScript's `SortCompare`
turns into `+0`. -/
def sortCompare (parse : String → Option Int) (a b : Project) : Int :=
  match sortKey parse a, sortKey parse b with
  | some ka, some kb => kb - ka
  | _, _ => 0

/-- Stable insertion of `x` into `l`: `x` goes before the first element it
compares `≤ 0` against (elements comparing equal keep their original
relative order, as ECMAScript's `Array.prototype.sort` guarantees). -/
def insertCmp (cmp : α → α → Int) (x : α) : List α → List α
  | [] => [x]
  | y :: ys => if cmp x y ≤ 0 then x :: y :: ys else y :: insertCmp cmp x ys

/-- Model of `Array.prototype.sort(cmp)` as a stable insertion sort. -/
def jsSortBy (cmp : α → α → Int) : List α → List α
  | [] => []
  | x :: xs => insertCmp cmp x (jsSortBy cmp xs)

/-- Handler of `GET /api/projects` (server.js:129-138): read the store, sort it with
the date comparator, return it. -/
def listProjects (parse : String → Option Int) (raw : List Project) : List Project :=
  jsSortBy (sortCompare parse) (readProjectsList raw)

/-- The sort key defaulted at 0 for `NaN`, used only to state sortedness. -/
def keyD (parse : String → Option Int) (p : Project) : Int :=
  (sortKey parse p).getD 0

/-- The multipart request body of the admin endpoints; every field is a
string when present (`multer` text fields). -/
structure Body where
  title : Option String := none
  summary : Option String := none
  date : Option String := none
  outcomes : Option String := none
  results : Option String := none
  purpose : Option String := none
  removeImages : Option String := none
  makePrimary : Option String := none

/-- A JSON API response: `200 {ok:true, project}` or an error status with a
message. -/
inductive ApiResp where
  | ok (p : Project) : ApiResp
  | err (status : Nat) (msg : String) : ApiResp
deriving DecidableEq

/-- HTTP status of a response. -/
def ApiResp.statusCode : ApiResp → Nat
  | .ok _ => 200
  | .err n _ => n

/-- The project carried by a success response. -/
def ApiResp.project : ApiResp → Option Project
  | .ok p => some p
  | .err _ _ => none

/-- The web path stored for an uploaded file:
`path.join("assets","images","projects", filename).replace(/\\/g, "/")`
(server.js:155-157, 240-244). -/
def webPath (filename : String) : String :=
  "assets/images/projects/" ++ filename

/-- Parse the `removeImages` field (server.js:208-217): `JSON.parse`
succeeding with an array gives its elements (string-coerced, see
`JsVal.toStr`); succeeding with a non-array resets the list to `[]`;
throwing (`jp _ = none`) falls back to comma-splitting. -/
def parseRemoveList (jp : String → Option JsVal) (s : String) : List String :=
  match jp s with
  | some v =>
    match v with
    | .arr l => l.map JsVal.toStr
    | _ => []
  | none => commaSplit s

/-- One iteration of the removal loop (server.js:219-234): find the first
image that equals the identifier or ends with it and splice it out
(the file-system unlink is a side effect outside the store model). -/
def removeOneImage (rem : String) (imgs : List String) : List String :=
  match findIndexA (matchesId rem) imgs with
  | some i => imgs.eraseIdx i
  | none => imgs

/-- The loop `removeList.forEach(...)` (server.js:219): apply `removeOneImage` for
each identifier in order. -/
def removeAllImages (removeList : List String) (imgs : List String) : List String :=
  removeList.foldl (fun acc rem => removeOneImage rem acc) imgs

/-- The append block (server.js:238-246): push the web path of every
uploaded file, in upload order. -/
def appendUploads (files : List String) (imgs : List String) : List String :=
  if files ≠ [] then imgs ++ files.map webPath else imgs

/-- Resolution of `makePrimary` to a target index (server.js:250-259):
`parseInt(mp, 10)` when it is a non-`NaN` in-range index, else
`findIndex` with the identifier match, else `-1`. -/
def targetIndex (mp : String) (imgs : List String) : Int :=
  let matchTarget : Int :=
    match findIndexA (matchesId mp) imgs with
    | some i => (i : Int)
    | none => -1
  match jsParseInt mp with
  | some n => if 0 ≤ n ∧ n < (imgs.length : Int) then n else matchTarget
  | none => matchTarget

/-- The make-primary block body (server.js:249-264): when the target index
is positive, splice that entry out and unshift it to the front. -/
def makePrimaryOp (mp : String) (imgs : List String) : List String :=
  let tgt := targetIndex mp imgs
  if 0 < tgt then
    match imgs[tgt.toNat]? with
    | some img => img :: imgs.eraseIdx tgt.toNat
    | none => imgs
  else imgs

/-- The three image sub-operations of the update route in source order:
remove, then append the new uploads, then make-primary
(server.js:207-264), each guarded by the truthiness/presence test of its
trigger. -/
def imagePipeline (jp : String → Option JsVal) (body : Body)
    (files : List String) (imgs : List String) : List String :=
  let imgsA :=
    if jsTruthy body.removeImages then
      removeAllImages (parseRemoveList jp (body.removeImages.getD "")) imgs
    else imgs
  let imgsB := appendUploads files imgsA
  if jsTruthy body.makePrimary then makePrimaryOp (body.makePrimary.getD "") imgsB
  else imgsB

/-- The partial text-field merge of the update route (server.js:193-204):
a field present in the body (`typeof x === "string"`, so even the empty
string) overwrites; `outcomes` is recomputed from the multi-line text. -/
def mergeFields (b : Body) (p : Project) : Project :=
  { p with
    title := match b.title with | some s => some s | none => p.title,
    summary := match b.summary with | some s => some s | none => p.summary,
    date := match b.date with | some s => some s | none => p.date,
    results := match b.results with | some s => some s | none => p.results,
    purpose := match b.purpose with | some s => some s | none => p.purpose,
    outcomes := match b.outcomes with
      | some s => some (splitOutcomes s)
      | none => p.outcomes }

/-- The record built by `POST /api/projects` (server.js:167-177). -/
def createdItem (freshId now : String) (body : Body) (files : List String) :
    Project where
  id := freshId
  title := body.title
  images := some (files.map webPath)
  summary := body.summary
  date := body.date
  outcomes := some (splitOutcomes (jsOr body.outcomes ""))
  results := body.results
  purpose := some (jsOr body.purpose "")
  createdAt := some now
  image := none

/-- Handler of `POST /api/projects` (server.js:148-183): validate the four required
fields, else build the record and append it to the store.  `freshId` and
`now` stand for `uuidv4()` and `new Date().toISOString()`. -/
def postProjects (freshId now : String) (body : Body) (files : List String)
    (raw : List Project) : ApiResp × List Project :=
  if ¬ jsTruthy body.title ∨ ¬ jsTruthy body.summary ∨
     ¬ jsTruthy body.date ∨ ¬ jsTruthy body.results then
    (.err 400 "Missing required fields", raw)
  else
    let list := readProjectsList raw
    let item := createdItem freshId now body files
    (.ok item, list ++ [item])

/-- Handler of `PUT /api/projects/:id` (server.js:186-268): find the record, merge
text fields, run the three image sub-operations (remove → append →
make-primary), persist, and return the updated record. -/
def putProjects (pid : String) (jp : String → Option JsVal) (body : Body)
    (files : List String) (raw : List Project) : ApiResp × List Project :=
  let list := readProjectsList raw
  match findIndexA (fun p => p.id == pid) list with
  | none => (.err 404 "Not found", raw)
  | some i =>
    match list[i]? with
    | none => (.err 404 "Not found", raw)
    | some p0 =>
      let p1 := mergeFields body p0
      let p2 := { p1 with
        images := some (imagePipeline jp body files (p1.images.getD [])) }
      (.ok p2, list.set i p2)

/-- Handler of `DELETE /api/projects/:id` (server.js:271-293): splice the record out
and return it (file unlinks are side effects outside the store model). -/
def deleteProjects (pid : String) (raw : List Project) : ApiResp × List Project :=
  let list := readProjectsList raw
  match findIndexA (fun p => p.id == pid) list with
  | none => (.err 404 "Not found", raw)
  | some i =>
    match list[i]? with
    | none => (.err 404 "Not found", raw)
    | some removed => (.ok removed, list.eraseIdx i)

/-- The `requireAuth` middleware (server.js:89-98): a missing or empty
cookie token is rejected 401; a token failing `jwt.verify` (modelled by
the abstract `verify`) is rejected 401; otherwise the guarded handler
runs.  The store is untouched on rejection. -/
def requireAuth (verify : String → Bool) (token : Option String)
    (handler : List Project → ApiResp × List Project)
    (store : List Project) : ApiResp × List Project :=
  if ¬ jsTruthy token then (.err 401 "Unauthorized", store)
  else if verify (token.getD "") then handler store
  else (.err 401 "Unauthorized", store)

/-- The wired `POST /api/projects` route: `requireAuth` ahead of the
handler (server.js:148). -/
def postEndpoint (verify : String → Bool) (token : Option String)
    (freshId now : String) (body : Body) (files : List String)
    (raw : List Project) : ApiResp × List Project :=
  requireAuth verify token (postProjects freshId now body files) raw

/-- The wired `PUT /api/projects/:id` route (server.js:186). -/
def putEndpoint (verify : String → Bool) (token : Option String)
    (pid : String) (jp : String → Option JsVal) (body : Body)
    (files : List String) (raw : List Project) : ApiResp × List Project :=
  requireAuth verify token (putProjects pid jp body files) raw

/-- The wired `DELETE /api/projects/:id` route (server.js:271). -/
def deleteEndpoint (verify : String → Bool) (token : Option String)
    (pid : String) (raw : List Project) : ApiResp × List Project :=
  requireAuth verify token (deleteProjects pid) raw

/-- Model of `s.replace(/c/g, r)` on a character list: replace every occurrence of
the character `c` by the replacement list `r`. -/
def replaceAllChar (c : Char) (r : List Char) (l : List Char) : List Char :=
  l.flatMap (fun x => if x = c then r else [x])

/-- The `safe` escaper of the detail-page renderer (server.js:307-311):
replace `&` first, then `<`, then `>`. -/
def safeChars (l : List Char) : List Char :=
  replaceAllChar '>' "&gt;".data
    (replaceAllChar '<' "&lt;".data
      (replaceAllChar '&' "&amp;".data l))

/-- The `safe` escaper on a string already known to be a string. -/
def safeStr (s : String) : String := ⟨safeChars s.data⟩

/-- The call `safe(s)` as made on a possibly-absent field: `String(s || "")`
then the three replacements. -/
def safeField (o : Option String) : String := safeStr (jsOr o "")

/-- Per-character escaping map: the single-pass equivalent of the three
sequential global replacements. -/
def escChar (c : Char) : List Char :=
  if c = '&' then "&amp;".data
  else if c = '<' then "&lt;".data
  else if c = '>' then "&gt;".data
  else [c]

/-- The user-supplied text fields of a record, in the order the detail-page
template embeds them (server.js:327, 362, 380, 384, 392, 395 and the
`outcomes` bullets of 313-315): title, date, summary, purpose, results,
then each outcomes entry. -/
def rawUserText (item : Project) : List String :=
  [jsOr item.title "", jsOr item.date "", jsOr item.summary "",
   jsOr item.purpose "", jsOr item.results ""] ++ item.outcomes.getD []

/-- The corresponding `safe(...)` interpolations actually emitted by the
template: every one of the user text fields passes through `safe`. -/
def renderedUserText (item : Project) : List String :=
  [safeField item.title, safeField item.date, safeField item.summary,
   safeField item.purpose, safeField item.results] ++
    (item.outcomes.getD []).map safeStr

/-- The `<li>` list the template builds from `outcomes`
(server.js:313-315). -/
def outcomesHtml (item : Project) : String :=
  ⟨((item.outcomes.getD []).map
      (fun o => "<li>" ++ safeStr o ++ "</li>")).foldr
    (fun s acc => s.data ++ acc) []⟩

/-- Spec-side definition, following the specification's words for the list
order: "sorted descending by `date` (falling back to `createdAt` when
`date` is absent/unparsable)" — i.e. the `createdAt` fallback also fires
when `date` is present but does not parse.  Stated only to be compared
with the source-derived `sortKey`. -/
def claimSortKey (parse : String → Option Int) (p : Project) : Option Int :=
  match (if jsTruthy p.date then parse (p.date.getD "") else none) with
  | some k => some k
  | none =>
    if jsTruthy p.createdAt then parse (p.createdAt.getD "")
    else some 0

/-- The key `claimSortKey` defaulted at 0, to state the claimed sortedness. -/
def claimKeyD (parse : String → Option Int) (p : Project) : Int :=
  (claimSortKey parse p).getD 0

/-- Spec-side description of the make-primary move: bring the entry at
index `i` to the front, shifting the others down (identity at index 0 or
out of range).  Stated only to be compared with `makePrimaryOp`. -/
def moveToFront (i : Nat) (l : List String) : List String :=
  if i = 0 then l
  else
    match l[i]? with
    | some x => x :: l.eraseIdx i
    | none => l


/-! ### Concrete fixtures used by witnesses and counterexamples -/

/-- A concrete instance of the abstract date parser, agreeing with
ECMAScript `new Date(s).getTime()` on the strings it is applied to:
ISO dates parse to their epoch milliseconds, `"n/a"` is an invalid date
(`NaN`). -/
def parse0 : String → Option Int := fun s =>
  if s = "2020-01-01" then some 1577836800000
  else if s = "2030-01-01" then some 1893456000000
  else if s = "2019-01-01" then some 1546300800000
  else none

/-- A record whose `date` is present but unparsable and whose `createdAt`
is recent. -/
def pA : Project := { id := "A", date := some "n/a", createdAt := some "2030-01-01" }

/-- A record with a parsable, older `date`. -/
def pB : Project := { id := "B", date := some "2020-01-01", createdAt := some "2019-01-01" }

/-- A record with a parsable `date` newer than `pB`'s. -/
def pC : Project := { id := "C", date := some "2030-01-01", createdAt := some "2019-01-01" }

/-- A concrete instance of the abstract `JSON.parse`, agreeing with the
real one on the only string it is applied to (a JSON array of one
string). -/
def jp0 : String → Option JsVal := fun s =>
  if s = "[\"assets/images/projects/old1.jpg\"]" then
    some (.arr [.str "assets/images/projects/old1.jpg"])
  else none

/-- A concrete instance of the abstract `JSON.parse` for non-array JSON:
`"5"` parses to the number 5, everything else throws. -/
def jp1 : String → Option JsVal := fun s =>
  if s = "5" then some (.num 5) else none

/-- A stored record with two images, as in the specification's update
scenario. -/
def rec0 : Project :=
  { id := "p1", title := some "Reef Survey",
    images := some ["assets/images/projects/old1.jpg",
                    "assets/images/projects/old2.jpg"] }

/-- The specification's update scenario body: remove the first image,
make the just-uploaded file primary. -/
def body0 : Body :=
  { removeImages := some "[\"assets/images/projects/old1.jpg\"]",
    makePrimary := some "new.jpg" }

/-- A legacy record whose singular `image` field holds the empty string. -/
def legacyEmpty : Project := { id := "L", image := some (.str ""), images := none }

/-- A legacy record with a truthy singular `image` field. -/
def legacyPic : Project := { id := "M", image := some (.str "pic.jpg"), images := none }

/-- A record with neither `images` nor a truthy legacy `image`. -/
def bareRec : Project := { id := "N" }

/-- A record with markup characters in its user text fields. -/
def item6 : Project :=
  { id := "X", title := some "<", summary := some "a&b",
    outcomes := some ["x<y"] }

/-- A concrete verifier: exactly one token is valid. -/
def verify0 : String → Bool := fun t => t = "good-token"

/-- A `findIndex` returning `-1` means no element satisfies the test. -/
theorem findIndexA_eq_none {f : α → Bool} {l : List α}
    (h : findIndexA f l = none) : ∀ x ∈ l, f x = false := by
  induction l with
  | nil => intro x hx; cases hx
  | cons z zs ih =>
    intro x hx
    unfold findIndexA at h
    by_cases hz : f z
    · simp [hz] at h
    · rcases List.mem_cons.mp hx with rfl | hx'
      · exact Bool.eq_false_iff.mpr hz
      · have h' : findIndexA f zs = none := by
          cases hfd : findIndexA f zs with
          | none => rfl
          | some k => rw [hfd] at h; simp [hz] at h
        exact ih h' x hx'

/-- A `findIndex` result points at the first element satisfying the test. -/
theorem findIndexA_eq_some {f : α → Bool} {l : List α} {i : Nat}
    (h : findIndexA f l = some i) :
    ∃ x, l[i]? = some x ∧ f x = true ∧
      ∀ j, j < i → ∀ y, l[j]? = some y → f y = false := by
  induction l generalizing i with
  | nil => simp [findIndexA] at h
  | cons z zs ih =>
    unfold findIndexA at h
    by_cases hz : f z
    · simp [hz] at h
      subst h
      exact ⟨z, by simp, hz, fun j hj => by omega⟩
    · simp [hz] at h
      rcases h with ⟨i', hi', rfl⟩
      rcases ih hi' with ⟨x, hx, hfx, hlt⟩
      refine ⟨x, by simpa using hx, hfx, ?_⟩
      intro j hj y hy
      match j with
      | 0 =>
        simp at hy
        subst hy
        exact Bool.eq_false_iff.mpr hz
      | j' + 1 =>
        exact hlt j' (by omega) y (by simpa using hy)

/-- Stable insertion produces a permutation of the cons. -/
theorem insertCmp_perm (cmp : α → α → Int) (x : α) (l : List α) :
    List.Perm (insertCmp cmp x l) (x :: l) := by
  induction l with
  | nil => simp [insertCmp]
  | cons y ys ih =>
    unfold insertCmp
    by_cases h : cmp x y ≤ 0
    · simp [h]
    · simp only [h, if_false]
      exact (List.Perm.cons y ih).trans (List.Perm.swap x y ys)

/-- The modelled sort produces a permutation of its input. -/
theorem jsSortBy_perm (cmp : α → α → Int) (l : List α) :
    List.Perm (jsSortBy cmp l) l := by
  induction l with
  | nil => simp [jsSortBy]
  | cons x xs ih =>
    exact (insertCmp_perm cmp x (jsSortBy cmp xs)).trans (List.Perm.cons x ih)

/-- With both keys valid, the comparator is the key difference. -/
theorem sortCompare_eq_sub (parse : String → Option Int) {a b : Project}
    (ha : (sortKey parse a).isSome = true) (hb : (sortKey parse b).isSome = true) :
    sortCompare parse a b = keyD parse b - keyD parse a := by
  unfold sortCompare keyD
  rcases Option.isSome_iff_exists.mp ha with ⟨ka, hka⟩
  rcases Option.isSome_iff_exists.mp hb with ⟨kb, hkb⟩
  rw [hka, hkb]
  rfl

/-- Inserting into a descending-by-key list keeps it descending, provided
all keys are valid (no `NaN`). -/
theorem insertCmp_pairwise (parse : String → Option Int) (x : Project)
    (l : List Project)
    (hx : (sortKey parse x).isSome = true)
    (hl : ∀ p ∈ l, (sortKey parse p).isSome = true)
    (hp : List.Pairwise (fun a b => keyD parse b ≤ keyD parse a) l) :
    List.Pairwise (fun a b => keyD parse b ≤ keyD parse a)
      (insertCmp (sortCompare parse) x l) := by
  induction l with
  | nil => simp [insertCmp]
  | cons y ys ih =>
    have hy : (sortKey parse y).isSome = true := hl y (List.mem_cons_self y ys)
    have hys : ∀ p ∈ ys, (sortKey parse p).isSome = true :=
      fun p hp' => hl p (List.mem_cons_of_mem y hp')
    rcases List.pairwise_cons.mp hp with ⟨hyz, hpw⟩
    unfold insertCmp
    by_cases h : sortCompare parse x y ≤ 0
    · simp only [h, if_true]
      refine List.Pairwise.cons ?_ hp
      intro z hz
      have hxy : keyD parse y ≤ keyD parse x := by
        rw [sortCompare_eq_sub parse hx hy] at h; omega
      rcases List.mem_cons.mp hz with rfl | hz'
      · exact hxy
      · exact le_trans (hyz z hz') hxy
    · simp only [h, if_false]
      have hxy : keyD parse x ≤ keyD parse y := by
        rw [sortCompare_eq_sub parse hx hy] at h; omega
      refine List.Pairwise.cons ?_ (ih hys hpw)
      intro z hz
      rcases List.mem_cons.mp ((insertCmp_perm (sortCompare parse) x ys).mem_iff.mp hz) with rfl | hz'
      · exact hxy
      · exact hyz z hz'

/-- The modelled sort yields a descending-by-key list when every key is
valid. -/
theorem jsSortBy_pairwise (parse : String → Option Int) (l : List Project)
    (hl : ∀ p ∈ l, (sortKey parse p).isSome = true) :
    List.Pairwise (fun a b => keyD parse b ≤ keyD parse a)
      (jsSortBy (sortCompare parse) l) := by
  induction l with
  | nil => simp [jsSortBy]
  | cons x xs ih =>
    have hx := hl x (List.mem_cons_self x xs)
    have hxs : ∀ p ∈ xs, (sortKey parse p).isSome = true :=
      fun p hp' => hl p (List.mem_cons_of_mem x hp')
    unfold jsSortBy
    refine insertCmp_pairwise parse x (jsSortBy (sortCompare parse) xs) hx ?_ (ih hxs)
    intro p hp'
    exact hxs p ((jsSortBy_perm (sortCompare parse) xs).mem_iff.mp hp')

/-- Unfolding of per-character replacement over cons. -/
theorem replaceAllChar_cons (c : Char) (r : List Char) (x : Char) (l : List Char) :
    replaceAllChar c r (x :: l) = (if x = c then r else [x]) ++ replaceAllChar c r l := by
  simp [replaceAllChar]

/-- Per-character replacement distributes over append. -/
theorem replaceAllChar_append (c : Char) (r : List Char) (l1 l2 : List Char) :
    replaceAllChar c r (l1 ++ l2) = replaceAllChar c r l1 ++ replaceAllChar c r l2 := by
  simp [replaceAllChar]

/-- The three sequential replacements of `safe` act per character. -/
theorem safeChars_cons (x : Char) (l : List Char) :
    safeChars (x :: l) = escChar x ++ safeChars l := by
  unfold safeChars
  rw [replaceAllChar_cons, replaceAllChar_append, replaceAllChar_append]
  congr 1
  by_cases h1 : x = '&'
  · subst h1; decide
  · by_cases h2 : x = '<'
    · subst h2; decide
    · by_cases h3 : x = '>'
      · subst h3; decide
      · simp [replaceAllChar, escChar, h1, h2, h3]

/-- The `safe` escaper is the per-character entity map. -/
theorem safeChars_eq_flatMap (l : List Char) : safeChars l = l.flatMap escChar := by
  induction l with
  | nil => rfl
  | cons x xs ih => rw [safeChars_cons, ih, List.flatMap_cons]

/-- No escaped character block contains a raw angle bracket. -/
theorem escChar_no_angle {c a : Char} (h : c ∈ escChar a) : c ≠ '<' ∧ c ≠ '>' := by
  unfold escChar at h
  by_cases h1 : a = '&'
  · rw [if_pos h1] at h
    have hd : ("&amp;".data : List Char) = ['&', 'a', 'm', 'p', ';'] := rfl
    rw [hd] at h
    simp at h
    rcases h with rfl | rfl | rfl | rfl | rfl <;> exact ⟨by decide, by decide⟩
  · rw [if_neg h1] at h
    by_cases h2 : a = '<'
    · rw [if_pos h2] at h
      have hd : ("&lt;".data : List Char) = ['&', 'l', 't', ';'] := rfl
      rw [hd] at h
      simp at h
      rcases h with rfl | rfl | rfl | rfl <;> exact ⟨by decide, by decide⟩
    · rw [if_neg h2] at h
      by_cases h3 : a = '>'
      · rw [if_pos h3] at h
        have hd : ("&gt;".data : List Char) = ['&', 'g', 't', ';'] := rfl
        rw [hd] at h
        simp at h
        rcases h with rfl | rfl | rfl | rfl <;> exact ⟨by decide, by decide⟩
      · rw [if_neg h3] at h
        simp at h
        subst h
        exact ⟨h2, h3⟩

/-- C8: an update whose makePrimary designates the image already at index
0, or an identifier resolving to no image, leaves the record's `images`
sequence unchanged. -/
theorem c8_make_primary_noop (mp : String) (imgs : List String)
    (h : targetIndex mp imgs = 0 ∨ targetIndex mp imgs = -1) :
    makePrimaryOp mp imgs = imgs := by
  rcases h with h | h <;> simp [makePrimaryOp, h]

theorem c8_witness :
    makePrimaryOp "a.jpg" ["x/a.jpg", "b.png"] = ["x/a.jpg", "b.png"] ∧
    makePrimaryOp "zzz" ["x/a.jpg", "b.png"] = ["x/a.jpg", "b.png"] :=
  ⟨c8_make_primary_noop "a.jpg" ["x/a.jpg", "b.png"] (Or.inl (by decide)),
   c8_make_primary_noop "zzz" ["x/a.jpg", "b.png"] (Or.inr (by decide))⟩

/-- C9: a makePrimary value whose `parseInt` is a non-NaN in-range index
is interpreted as that index — suffix/equality matching against image
paths is never attempted, whatever `imgs` contains. -/
theorem c9_numeric_make_primary (mp : String) (imgs : List String) (n : Int)
    (hp : jsParseInt mp = some n) (h0 : 0 ≤ n) (hl : n < (imgs.length : Int)) :
    makePrimaryOp mp imgs = moveToFront n.toNat imgs := by
  have ht : targetIndex mp imgs = n := by
    simp [targetIndex, hp, h0, hl]
  simp only [makePrimaryOp, ht]
  by_cases hz : n ≤ 0
  · have hn0 : n = 0 := le_antisymm hz h0
    subst hn0
    simp [moveToFront]
  · have hpos : 0 < n := lt_of_not_le hz
    rw [if_pos hpos]
    unfold moveToFront
    rw [if_neg (by omega : ¬ n.toNat = 0)]

theorem c9_witness :
    jsParseInt "2.jpg" = some 2 ∧
    makePrimaryOp "2.jpg" ["a.jpg", "x2.jpg", "c.png"] =
      moveToFront (Int.toNat 2) ["a.jpg", "x2.jpg", "c.png"] ∧
    moveToFront (Int.toNat 2) ["a.jpg", "x2.jpg", "c.png"] =
      ["c.png", "a.jpg", "x2.jpg"] :=
  ⟨by decide,
   c9_numeric_make_primary "2.jpg" ["a.jpg", "x2.jpg", "c.png"] 2
     (by decide) (by decide) (by decide),
   by decide⟩

/-- Helper: JSON that parses to a non-array yields an empty removal
list. -/
theorem parseRemoveList_nonarray {jp : String → Option JsVal} {s : String}
    {v : JsVal} (hv : jp s = some v) (hna : v.isArr = false) :
    parseRemoveList jp s = [] := by
  unfold parseRemoveList
  rw [hv]
  cases v <;> simp_all [JsVal.isArr]

/-- C10: a removeImages value that is valid JSON but not an array is
treated as an empty removal list (no comma-split fallback, no removal,
the update behaves as if removeImages were absent); the comma-split
fallback applies exactly when JSON.parse throws. -/
theorem c10_remove_images_parsing (jp : String → Option JsVal) (s : String) :
    (∀ v, jp s = some v → v.isArr = false → parseRemoveList jp s = []) ∧
    (jp s = none → parseRemoveList jp s = commaSplit s) ∧
    (∀ v, jp s = some v → v.isArr = false → s ≠ "" →
      ∀ (pid : String) (body : Body) (files : List String) (raw : List Project),
        body.removeImages = some s →
        putProjects pid jp body files raw =
          putProjects pid jp { body with removeImages := none } files raw) := by
  refine ⟨fun v hv hna => parseRemoveList_nonarray hv hna, ?_, ?_⟩
  · intro h
    unfold parseRemoveList
    rw [h]
  · intro v hv hna hs pid body files raw hb
    have hpl : parseRemoveList jp s = [] := parseRemoveList_nonarray hv hna
    have hip : ∀ imgs, imagePipeline jp { body with removeImages := none } files imgs =
        imagePipeline jp body files imgs := by
      intro imgs
      unfold imagePipeline
      rw [show ({ body with removeImages := none } : Body).removeImages = none from rfl,
        hb]
      simp [jsTruthy, hs, hpl, removeAllImages]
    have hipF : imagePipeline jp { body with removeImages := none } files =
        imagePipeline jp body files := funext hip
    have hmfF : mergeFields { body with removeImages := none } = mergeFields body := rfl
    simp only [putProjects, hipF, hmfF]

theorem c10_witness :
    parseRemoveList jp1 "5" = [] ∧
    parseRemoveList jp1 "a, b" = commaSplit "a, b" ∧
    putProjects "p1" jp1 { removeImages := some "5" } [] [rec0] =
      putProjects "p1" jp1
        { (⟨none, none, none, none, none, none, some "5", none⟩ : Body) with
          removeImages := none } [] [rec0] :=
  ⟨(c10_remove_images_parsing jp1 "5").1 (.num 5) rfl rfl,
   (c10_remove_images_parsing jp1 "a, b").2.1 rfl,
   (c10_remove_images_parsing jp1 "5").2.2 (.num 5) rfl rfl (by decide)
     "p1" { removeImages := some "5" } [] [rec0] rfl⟩

/-- C4 (amended): a persisted record with a non-empty-string legacy
`image` field and no `images` field is normalized on load to a
one-element `images` list with the legacy field dropped; a record with
no `images` field and no truthy legacy `image` gets the empty list. -/
theorem c4_legacy_image_migration :
    (∀ (p : Project) (s : String), p.image = some (.str s) → s ≠ "" →
        p.images = none →
        (normalizeProject p).images = some [s] ∧
        (normalizeProject p).image = none) ∧
    (∀ p : Project, p.images = none → jsTruthyImage p.image = false →
        (normalizeProject p).images = some []) := by
  constructor
  · intro p s hs hne hn
    simp [normalizeProject, hs, hn, jsTruthyImage, hne]
  · intro p hn hf
    simp [normalizeProject, hn, hf]

theorem c4_witness :
    ((normalizeProject legacyPic).images = some ["pic.jpg"] ∧
     (normalizeProject legacyPic).image = none) ∧
    (normalizeProject bareRec).images = some [] :=
  ⟨c4_legacy_image_migration.1 legacyPic "pic.jpg" rfl (by decide) rfl,
   c4_legacy_image_migration.2 bareRec rfl rfl⟩

/-- C4 counterexample: a record whose legacy `image` field holds the empty
string (a present singular `image` field) and has no `images` field is
not migrated — after load its `images` is empty, not one-element, and
the `image` field survives. -/
theorem c4_counterexample :
    legacyEmpty.image = some (.str "") ∧ legacyEmpty.images = none ∧
    ¬ ((normalizeProject legacyEmpty).images = some [""] ∧
       (normalizeProject legacyEmpty).image = none) := by decide

/-- C7: creation fails with 400 and an unchanged store when any of the
four required fields is missing or empty, and succeeds with 200, the
created record, and that record appended, when all four are present and
non-empty. -/
theorem c7_create_validation (freshId now : String) (body : Body)
    (files : List String) (raw : List Project) :
    ((jsTruthy body.title = false ∨ jsTruthy body.summary = false ∨
        jsTruthy body.date = false ∨ jsTruthy body.results = false) →
      postProjects freshId now body files raw =
        (.err 400 "Missing required fields", raw)) ∧
    (jsTruthy body.title = true → jsTruthy body.summary = true →
      jsTruthy body.date = true → jsTruthy body.results = true →
      postProjects freshId now body files raw =
        (.ok (createdItem freshId now body files),
          readProjectsList raw ++ [createdItem freshId now body files])) := by
  constructor
  · intro h
    rcases h with h | h | h | h <;> simp [postProjects, h]
  · intro h1 h2 h3 h4
    simp [postProjects, h1, h2, h3, h4]

theorem c7_witness :
    postProjects "id9" "2024-05-05T00:00:00Z"
        { title := some "T", summary := none, date := some "2024-01-01",
          results := some "R" } [] [] =
      (.err 400 "Missing required fields", []) ∧
    postProjects "id9" "2024-05-05T00:00:00Z"
        { title := some "T", summary := some "S", date := some "2024-01-01",
          results := some "R" } ["f.jpg"] [] =
      (.ok (createdItem "id9" "2024-05-05T00:00:00Z"
          { title := some "T", summary := some "S", date := some "2024-01-01",
            results := some "R" } ["f.jpg"]),
        [createdItem "id9" "2024-05-05T00:00:00Z"
          { title := some "T", summary := some "S", date := some "2024-01-01",
            results := some "R" } ["f.jpg"]]) :=
  ⟨(c7_create_validation "id9" "2024-05-05T00:00:00Z"
      { title := some "T", summary := none, date := some "2024-01-01",
        results := some "R" } [] []).1 (Or.inr (Or.inl rfl)),
   (c7_create_validation "id9" "2024-05-05T00:00:00Z"
      { title := some "T", summary := some "S", date := some "2024-01-01",
        results := some "R" } ["f.jpg"] []).2 (by decide) (by decide)
     (by decide) (by decide)⟩

/-- C3: a mutating request with a missing/empty cookie token, or one whose
token fails verification, yields 401 and leaves the store untouched, on
each of the POST, PUT and DELETE endpoints; a valid token lets the
request reach the corresponding handler. -/
theorem c3_auth_gate (verify : String → Bool) (token : Option String)
    (freshId now pid : String) (jp : String → Option JsVal) (body : Body)
    (files : List String) (raw : List Project) :
    ((jsTruthy token = false ∨ verify (token.getD "") = false) →
      postEndpoint verify token freshId now body files raw =
          (.err 401 "Unauthorized", raw) ∧
      putEndpoint verify token pid jp body files raw =
          (.err 401 "Unauthorized", raw) ∧
      deleteEndpoint verify token pid raw = (.err 401 "Unauthorized", raw)) ∧
    (jsTruthy token = true → verify (token.getD "") = true →
      postEndpoint verify token freshId now body files raw =
          postProjects freshId now body files raw ∧
      putEndpoint verify token pid jp body files raw =
          putProjects pid jp body files raw ∧
      deleteEndpoint verify token pid raw = deleteProjects pid raw) := by
  constructor
  · intro h
    rcases h with h | h
    · exact ⟨by simp [postEndpoint, requireAuth, h],
        by simp [putEndpoint, requireAuth, h],
        by simp [deleteEndpoint, requireAuth, h]⟩
    · by_cases ht : jsTruthy token = true
      · exact ⟨by simp [postEndpoint, requireAuth, ht, h],
          by simp [putEndpoint, requireAuth, ht, h],
          by simp [deleteEndpoint, requireAuth, ht, h]⟩
      · have ht' : jsTruthy token = false := by
          cases hb : jsTruthy token
          · rfl
          · exact absurd hb ht
        exact ⟨by simp [postEndpoint, requireAuth, ht'],
          by simp [putEndpoint, requireAuth, ht'],
          by simp [deleteEndpoint, requireAuth, ht']⟩
  · intro ht hv
    exact ⟨by simp [postEndpoint, requireAuth, ht, hv],
      by simp [putEndpoint, requireAuth, ht, hv],
      by simp [deleteEndpoint, requireAuth, ht, hv]⟩

theorem c3_witness :
    (postEndpoint verify0 none "id1" "2024-01-01T00:00:00Z"
        { title := some "T" } [] [rec0] = (.err 401 "Unauthorized", [rec0]) ∧
      putEndpoint verify0 none "p1" jp1 { title := some "T" } [] [rec0] =
        (.err 401 "Unauthorized", [rec0]) ∧
      deleteEndpoint verify0 none "p1" [rec0] =
        (.err 401 "Unauthorized", [rec0])) ∧
    (postEndpoint verify0 (some "bad") "id1" "2024-01-01T00:00:00Z"
        { title := some "T" } [] [rec0] = (.err 401 "Unauthorized", [rec0]) ∧
      putEndpoint verify0 (some "bad") "p1" jp1 { title := some "T" } [] [rec0] =
        (.err 401 "Unauthorized", [rec0]) ∧
      deleteEndpoint verify0 (some "bad") "p1" [rec0] =
        (.err 401 "Unauthorized", [rec0])) ∧
    deleteEndpoint verify0 (some "good-token") "p1" [rec0] =
      deleteProjects "p1" [rec0] :=
  ⟨(c3_auth_gate verify0 none "id1" "2024-01-01T00:00:00Z" "p1" jp1
      { title := some "T" } [] [rec0]).1 (Or.inl (by decide)),
   (c3_auth_gate verify0 (some "bad") "id1" "2024-01-01T00:00:00Z" "p1" jp1
      { title := some "T" } [] [rec0]).1 (Or.inr (by decide)),
   ((c3_auth_gate verify0 (some "good-token") "id1" "2024-01-01T00:00:00Z" "p1"
      jp1 { title := some "T" } [] [rec0]).2 (by decide) (by decide)).2.2⟩

/-- C5: removal deletes the first image (in array order) equal to the
identifier or ending with it, preserving the relative order of the rest;
an identifier matching nothing leaves `images` unchanged, and an update
on an existing record always answers 200. -/
theorem c5_remove_image_matching (rem : String) (imgs : List String) :
    (findIndexA (matchesId rem) imgs = none → removeOneImage rem imgs = imgs) ∧
    (∀ i, findIndexA (matchesId rem) imgs = some i →
      removeOneImage rem imgs = imgs.take i ++ imgs.drop (i + 1) ∧
      (∃ x, imgs[i]? = some x ∧ matchesId rem x = true) ∧
      (∀ j, j < i → ∀ y, imgs[j]? = some y → matchesId rem y = false)) ∧
    (∀ (pid : String) (jp : String → Option JsVal) (body : Body)
        (files : List String) (raw : List Project) (i : Nat),
      findIndexA (fun p => p.id == pid) (readProjectsList raw) = some i →
      (putProjects pid jp body files raw).1.statusCode = 200) := by
  refine ⟨?_, ?_, ?_⟩
  · intro h
    unfold removeOneImage
    rw [h]
  · intro i hi
    refine ⟨?_, ?_, ?_⟩
    · unfold removeOneImage
      rw [hi]
      exact List.eraseIdx_eq_take_drop_succ imgs i
    · rcases findIndexA_eq_some hi with ⟨x, hx, hfx, _⟩
      exact ⟨x, hx, hfx⟩
    · rcases findIndexA_eq_some hi with ⟨x, hx, hfx, hlt⟩
      exact hlt
  · intro pid jp body files raw i hi
    rcases findIndexA_eq_some hi with ⟨p0, hp0, _, _⟩
    simp [putProjects, hi, hp0, ApiResp.statusCode]

theorem c5_witness :
    removeOneImage "z" ["a", "cb", "b"] = ["a", "cb", "b"] ∧
    removeOneImage "b" ["a", "cb", "b"] =
      (["a", "cb", "b"].take 1 ++ ["a", "cb", "b"].drop 2) ∧
    (putProjects "p1" jp1 { removeImages := some "zzz" } [] [rec0]).1.statusCode
      = 200 :=
  ⟨(c5_remove_image_matching "z" ["a", "cb", "b"]).1 (by decide),
   ((c5_remove_image_matching "b" ["a", "cb", "b"]).2.1 1 (by decide)).1,
   (c5_remove_image_matching "b" ["a", "cb", "b"]).2.2 "p1" jp1
     { removeImages := some "zzz" } [] [rec0] 0 (by decide)⟩

/-- C2: the update route applies the image sub-operations in the source
order remove → append-new → make-primary on the found record's images,
so a makePrimary identifier can resolve to a file uploaded in the same
request — witnessed by the specification's scenario (second conjunct):
removing the first of two images, uploading one file and making it
primary yields `[newFile, secondOriginalImage]`. -/
theorem c2_image_ops_order (pid : String) (jp : String → Option JsVal)
    (body : Body) (files : List String) (raw : List Project) (i : Nat)
    (p0 : Project)
    (hf : findIndexA (fun p => p.id == pid) (readProjectsList raw) = some i)
    (hg : (readProjectsList raw)[i]? = some p0) :
    ((putProjects pid jp body files raw).1.project.map Project.images =
      some (some (
        let afterRemove :=
          if jsTruthy body.removeImages then
            removeAllImages (parseRemoveList jp (body.removeImages.getD ""))
              (p0.images.getD [])
          else p0.images.getD []
        let afterAppend := appendUploads files afterRemove
        if jsTruthy body.makePrimary then
          makePrimaryOp (body.makePrimary.getD "") afterAppend
        else afterAppend))) ∧
    (putProjects "p1" jp0 body0 ["new.jpg"] [rec0]).1.project.map Project.images
      = some (some ["assets/images/projects/new.jpg",
                    "assets/images/projects/old2.jpg"]) := by
  constructor
  · have hmi : (mergeFields body p0).images = p0.images := rfl
    simp only [putProjects, hf, hg, ApiResp.project, Option.map, imagePipeline,
      hmi]
  · decide

theorem c2_witness :
    (putProjects "p1" jp0 body0 ["new.jpg"] [rec0]).1.project.map Project.images
      = some (some ["assets/images/projects/new.jpg",
                    "assets/images/projects/old2.jpg"]) :=
  (c2_image_ops_order "p1" jp0 body0 ["new.jpg"] [rec0] 0
    (normalizeProject rec0) (by decide) (by decide)).2

/-- C1 (amended): the list endpoint returns a permutation of the (loaded)
store; whenever every record's effective key — `date` when non-empty,
else `createdAt` when non-empty, else the epoch — parses, the output is
sorted descending by that key.  The `createdAt` fallback fires only for
an absent/empty `date`, never for a present-but-unparsable one (third
conjunct). -/
theorem c1_list_sorted (parse : String → Option Int) (raw : List Project)
    (h : ∀ p ∈ readProjectsList raw, (sortKey parse p).isSome = true) :
    List.Perm (listProjects parse raw) (readProjectsList raw) ∧
    List.Pairwise (fun a b => keyD parse b ≤ keyD parse a)
      (listProjects parse raw) ∧
    (∀ p : Project, jsTruthy p.date = true →
      sortKey parse p = parse (p.date.getD "")) := by
  unfold listProjects
  refine ⟨jsSortBy_perm _ _, jsSortBy_pairwise parse _ h, ?_⟩
  intro p hd
  simp [sortKey, hd]

theorem c1_witness :
    (∀ p ∈ readProjectsList [pB, pC], (sortKey parse0 p).isSome = true) ∧
    (List.Perm (listProjects parse0 [pB, pC]) (readProjectsList [pB, pC]) ∧
      List.Pairwise (fun a b => keyD parse0 b ≤ keyD parse0 a)
        (listProjects parse0 [pB, pC]) ∧
      (∀ p : Project, jsTruthy p.date = true →
        sortKey parse0 p = parse0 (p.date.getD ""))) :=
  ⟨by decide, c1_list_sorted parse0 [pB, pC] (by decide)⟩

/-- C1 counterexample: `pA`'s `date` is present but unparsable, so the
claimed key (fall back to `createdAt` when `date` is unparsable) orders
`pA` (createdAt 2030) before `pB` (date 2020); the code's comparator
sees `NaN`, yields `+0`, keeps the stored order `[pB, pA]`, and the
output is not sorted by the claimed key. -/
theorem c1_counterexample :
    listProjects parse0 [pB, pA] = readProjectsList [pB, pA] ∧
    claimKeyD parse0 (normalizeProject pB) <
      claimKeyD parse0 (normalizeProject pA) ∧
    ¬ List.Pairwise
        (fun a b => claimKeyD parse0 b ≤ claimKeyD parse0 a)
        (listProjects parse0 [pB, pA]) := by decide

/-- C6: the detail-page renderer escapes `&`, `<`, `>` in every
user-supplied text field (title, date, summary, outcomes entries,
purpose, results) before embedding: each emitted fragment is the
per-character entity escape of the corresponding raw field, and no
emitted fragment contains a raw `<` or `>`. -/
theorem c6_renderer_escapes (item : Project) :
    renderedUserText item =
      (rawUserText item).map (fun s => (⟨s.data.flatMap escChar⟩ : String)) ∧
    (∀ t ∈ renderedUserText item, ∀ c ∈ t.data, c ≠ '<' ∧ c ≠ '>') := by
  have hsafe : ∀ s : String, safeStr s = (⟨s.data.flatMap escChar⟩ : String) :=
    fun s => congrArg String.mk (safeChars_eq_flatMap s.data)
  constructor
  · simp [renderedUserText, rawUserText, safeField, hsafe]
  · intro t ht c hc
    have hex : ∃ s, t = safeStr s := by
      simp only [renderedUserText, List.mem_append, List.mem_cons,
        List.not_mem_nil, or_false, List.mem_map, safeField] at ht
      rcases ht with (h | h | h | h | h) | ⟨o, _, h⟩
      · exact ⟨jsOr item.title "", h⟩
      · exact ⟨jsOr item.date "", h⟩
      · exact ⟨jsOr item.summary "", h⟩
      · exact ⟨jsOr item.purpose "", h⟩
      · exact ⟨jsOr item.results "", h⟩
      · exact ⟨o, h.symm⟩
    rcases hex with ⟨s, rfl⟩
    have hc' : c ∈ safeChars s.data := hc
    rw [safeChars_eq_flatMap] at hc'
    rcases List.mem_flatMap.mp hc' with ⟨a, _, hca⟩
    exact escChar_no_angle hca

theorem c6_witness :
    renderedUserText item6 =
      (rawUserText item6).map (fun s => (⟨s.data.flatMap escChar⟩ : String)) ∧
    ('&' ≠ '<' ∧ '&' ≠ '>') :=
  ⟨(c6_renderer_escapes item6).1,
   (c6_renderer_escapes item6).2 "&lt;" (by decide) '&' (by decide)⟩

end ClimateSite
